import Mathlib

/-!
Shallow embedding of the `dopen` desktop-entry launcher (Rust) and proofs
about it.  Strings are modelled as `List Char`, raw byte buffers as
`List Nat` (each element one byte).  Rust iterators are fused into direct
recursive functions; `nom` parser combinators are written out as explicit
state-passing functions over the remaining input.
-/

namespace Dopen

/- ===================== UTF-8 (std `str::from_utf8`) ===================== -/

/-- A byte buffer, one `Nat` per byte. -/
abbrev Input := List Nat

/-- True for UTF-8 continuation bytes `0x80..0xBF`. -/
def isCont (b : Nat) : Bool := 128 ≤ b && b ≤ 191

/-- Decode a single UTF-8 scalar from the front of a byte list, following the
table of RFC 3629 (what Rust's `str::from_utf8` accepts): returns the decoded
character and the remaining bytes, or `none` on an invalid sequence. -/
def utf8DecodeOne (i : Input) : Option (Char × Input) :=
  match i with
  | [] => none
  | b :: rest =>
    if b < 128 then some (Char.ofNat b, rest)
    else if 194 ≤ b && b ≤ 223 then
      match rest with
      | b1 :: r =>
        if isCont b1 then some (Char.ofNat ((b - 192) * 64 + (b1 - 128)), r) else none
      | [] => none
    else if 224 ≤ b && b ≤ 239 then
      match rest with
      | b1 :: b2 :: r =>
        let lo1 := if b = 224 then 160 else 128
        let hi1 := if b = 237 then 159 else 191
        if lo1 ≤ b1 && b1 ≤ hi1 && isCont b2 then
          some (Char.ofNat ((b - 224) * 4096 + (b1 - 128) * 64 + (b2 - 128)), r)
        else none
      | _ => none
    else if 240 ≤ b && b ≤ 244 then
      match rest with
      | b1 :: b2 :: b3 :: r =>
        let lo1 := if b = 240 then 144 else 128
        let hi1 := if b = 244 then 143 else 191
        if lo1 ≤ b1 && b1 ≤ hi1 && isCont b2 && isCont b3 then
          some (Char.ofNat ((b - 240) * 262144 + (b1 - 128) * 4096 + (b2 - 128) * 64 + (b3 - 128)), r)
        else none
      | _ => none
    else none

/-- Decode a whole byte list as UTF-8.  Fuel-indexed so that the definition is
structurally recursive; `utf8DecodeOne` consumes at least one byte whenever it
succeeds, so fuel `i.length` is always sufficient and the fuel-exhausted
branch is unreachable. -/
def utf8DecodeGo : Nat → Input → Option (List Char)
  | _, [] => some []
  | 0, _ :: _ => none
  | fuel + 1, i =>
    match utf8DecodeOne i with
    | none => none
    | some (c, r) => (utf8DecodeGo fuel r).map (c :: ·)

/-- Decode a whole byte list as UTF-8 (Rust `str::from_utf8` followed by
collecting the chars). -/
def utf8Decode (i : Input) : Option (List Char) := utf8DecodeGo i.length i

/-- Whether a byte list is entirely valid UTF-8. -/
def validUtf8 (i : Input) : Bool := (utf8Decode i).isSome

/- ===================== Value codec (entries.rs, mod util) ===================== -/

/-- The translation applied by `unescape_value` to the character following a
backslash (the match arms of desktop/entries.rs, `unescape_value`). -/
def unescapeEscape (e : Char) : List Char :=
  if e = 's' then [' ']
  else if e = 'n' then ['\n']
  else if e = 't' then ['\t']
  else if e = 'r' then ['\r']
  else if e = '\\' then ['\\']
  else ['\\', e]

/-- desktop/entries.rs `util::unescape_value`: unescape a string value.
Total by construction (the Rust function never fails). -/
def unescape_value : List Char → List Char
  | [] => []
  | c :: rest =>
    if c = '\\' then
      match rest with
      | [] => ['\\']
      | e :: r => unescapeEscape e ++ unescape_value r
    else c :: unescape_value rest

/-- The translation applied by `Values::next` to the character following a
backslash (the inner match of desktop/entries.rs, `Values::next`); it
additionally recognizes an escaped semicolon. -/
def valuesEscape (e : Char) : List Char :=
  if e = '\\' then ['\\']
  else if e = ';' then [';']
  else if e = 's' then [' ']
  else if e = 'n' then ['\n']
  else if e = 't' then ['\t']
  else if e = 'r' then ['\r']
  else ['\\', e]

/-- The loop of desktop/entries.rs `Values::next`, with the repeated calls of
the iterator fused into one recursion.  `acc` is the value built so far.  At
an unescaped `;` the current value is emitted; the iterator is only invoked
again when input remains (its first line returns `None` on empty input), which
is the `rest.isEmpty` test here.  At end of input the current value is
emitted. -/
def splitGo : List Char → List Char → List (List Char)
  | [], acc => [acc]
  | c :: rest, acc =>
    if c = '\\' then
      match rest with
      | [] => [acc ++ ['\\']]
      | e :: r => splitGo r (acc ++ valuesEscape e)
    else if c = ';' then
      if rest.isEmpty then [acc] else acc :: splitGo rest []
    else splitGo rest (acc ++ [c])

/-- desktop/entries.rs `util::split_value_str`: split a multi-value string on
unescaped semicolons (the `Values` iterator, run to completion).  Empty input
yields no values at all. -/
def split_value_str (s : List Char) : List (List Char) :=
  match s with
  | [] => []
  | cs => splitGo cs []

/- ===================== Typed field model (entries.rs) ===================== -/

/-- Rust `bool::from_str`: exactly the literal tokens. -/
def bool_from_str (s : List Char) : Option Bool :=
  if s = "true".data then some true
  else if s = "false".data then some false
  else none

/-- `Entry::deserialize` for a boolean-typed field (`entry_type!` with `bool`):
`s.parse().ok()` via `bool::from_str`. -/
def bool_deserialize (s : List Char) : Option Bool := bool_from_str s

/-- `Entry::deserialize` for a string-typed field (`entry_type!` with
`String`): `from_str` applies `unescape_value` and never fails. -/
def string_deserialize (s : List Char) : Option (List Char) :=
  some (unescape_value s)

/-- `Entry::deserialize` for a string-list field (`entry_type!` with
`Vec<String>`): `from_str` collects `split_value_str` and never fails. -/
def list_deserialize (s : List Char) : Option (List (List Char)) :=
  some (split_value_str s)

/-- desktop/entries.rs `Type`. -/
inductive EntryType
  | Application
  | Link
  | Directory
  | Unknown (s : List Char)
  deriving DecidableEq, Repr

/-- `Type::from_str`: the three known names, with `Unknown` fallback. -/
def type_from_str (s : List Char) : EntryType :=
  if s = "Application".data then .Application
  else if s = "Link".data then .Link
  else if s = "Directory".data then .Directory
  else .Unknown s

/-- `Entry::deserialize` for `Type`: total. -/
def type_deserialize (s : List Char) : Option EntryType :=
  some (type_from_str s)

/-- desktop/entries.rs `Category`. -/
inductive Category
  | AudioVideo | Audio | Video | Development | Education | Game | Graphics
  | Network | Office | Science | Settings | System | Utility
  | Custom (s : List Char)
  deriving DecidableEq, Repr

/-- `Category::from_str`: known names with `Custom` fallback; never fails. -/
def category_from_str (s : List Char) : Category :=
  if s = "AudioVideo".data then .AudioVideo
  else if s = "Audio".data then .Audio
  else if s = "Video".data then .Video
  else if s = "Development".data then .Development
  else if s = "Education".data then .Education
  else if s = "Game".data then .Game
  else if s = "Graphics".data then .Graphics
  else if s = "Network".data then .Network
  else if s = "Office".data then .Office
  else if s = "Science".data then .Science
  else if s = "Settings".data then .Settings
  else if s = "System".data then .System
  else if s = "Utility".data then .Utility
  else .Custom s

/-- `Categories::from_str` / `deserialize`: split then decode each element
(the per-element `unwrap` is safe, `Category::from_str` is infallible). -/
def categories_deserialize (s : List Char) : Option (List Category) :=
  some ((split_value_str s).map category_from_str)

/- ===================== Document model (model.rs) ===================== -/

/-- Lowercase a single ASCII letter (other characters unchanged). -/
def asciiLowerChar (c : Char) : Char :=
  if 'A' ≤ c ∧ c ≤ 'Z' then Char.ofNat (c.toNat + 32) else c

/-- Rust `str::to_ascii_lowercase` / `make_ascii_lowercase` on decoded text. -/
def to_ascii_lowercase (s : List Char) : List Char := s.map asciiLowerChar

/-- desktop/model.rs `Group`: a named group of raw key/value pairs.  The Rust
`HashMap<String, String>` is modelled as an association list; all access goes
through lookup-by-key, so only the key-to-value mapping matters. -/
structure Group where
  name : List Char
  values : List (List Char × List Char)
  deriving DecidableEq, Repr

/-- `HashMap::insert`: overwrite the binding if the key is present, otherwise
add a new binding. -/
def hmInsert (m : List (List Char × List Char)) (k v : List Char) :
    List (List Char × List Char) :=
  if m.any (fun p => p.1 == k) then
    m.map (fun p => if p.1 == k then (k, v) else p)
  else m ++ [(k, v)]

/-- desktop/model.rs `DesktopEntry`: the ordered list of parsed groups. -/
structure DesktopEntry where
  groups : List Group
  deriving DecidableEq, Repr

/-- model.rs `DESKTOP_ENTRY_NAME`. -/
def DESKTOP_ENTRY_NAME : List Char := "Desktop Entry".data

/-- `Group::get_raw`: look the key up after lowercasing it (keys are stored
lowercased by the parser). -/
def Group.get_raw (g : Group) (name : List Char) : Option (List Char) :=
  g.values.lookup (to_ascii_lowercase name)

/-- `Group::get::<T>` for a string-typed entry `T` (such as `Icon`, `Name`):
raw lookup followed by the string deserializer, which unescapes. -/
def Group.get_string (g : Group) (name : List Char) : Option (List Char) :=
  (g.get_raw name).bind string_deserialize

/-- `DesktopEntry::group`: first group with the given (case-sensitive) name. -/
def DesktopEntry.group (d : DesktopEntry) (name : List Char) : Option Group :=
  d.groups.find? (fun g => g.name == name)

/-- `DesktopEntry::main_group`. -/
def DesktopEntry.main_group (d : DesktopEntry) : Option Group :=
  d.group DESKTOP_ENTRY_NAME

/-- `DesktopEntry::get::<T>` for a string-typed entry `T`. -/
def DesktopEntry.get_string (d : DesktopEntry) (name : List Char) :
    Option (List Char) :=
  d.main_group.bind (fun g => g.get_string name)

/- ===================== Grammar parser (parser.rs) ===================== -/

/-- The `nom::error::ErrorKind` values reachable in this parser. -/
inductive ErrorKind
  | Eof | Char | Many0 | MapRes | RegexpFind
  deriving DecidableEq, Repr

/-- desktop/error.rs `ParseError`.  `Syntax` stores the first (at most) 16
bytes of the input at the error position; the Rust code renders them with
`escape_ascii` into a `String`, which we keep as the raw bytes.  The payload
of the i/o variant (a Rust `io::Error`) is outside the parsing core and is
dropped; the variant is named `Io` here. -/
inductive ParseError
  | Syntax (sample : Input) (kind : ErrorKind)
  | NonUtf8
  | Io
  deriving DecidableEq, Repr

/-- `nom::error::ParseError::from_error_kind` for `ParseError`. -/
def from_error_kind (i : Input) (k : ErrorKind) : ParseError :=
  .Syntax (i.take 16) k

/-- A `nom::Err`: recoverable error (alternation backtracks) or failure
(propagates).  `Incomplete` cannot arise from the complete-input
combinators used here. -/
inductive NomErr
  | err (e : ParseError)
  | failure (e : ParseError)
  deriving DecidableEq, Repr

/-- `nom` `char(c)` on bytes: match one exact byte. -/
def pchar (c : Nat) (i : Input) : Except NomErr (Input × Nat) :=
  match i with
  | b :: rest =>
    if b = c then .ok (rest, c) else .error (.err (from_error_kind i .Char))
  | [] => .error (.err (from_error_kind i .Char))

/-- `nom` `space0`: zero or more spaces or tabs, never fails. -/
def space0 (i : Input) : Except NomErr (Input × Input) :=
  .ok (i.dropWhile (fun b => b = 32 || b = 9), i.takeWhile (fun b => b = 32 || b = 9))

/-- `nom` `take_while p`: longest matching leading run, never fails. -/
def take_while (p : Nat → Bool) (i : Input) : Except NomErr (Input × Input) :=
  .ok (i.dropWhile p, i.takeWhile p)

/-- `nom` `eof`: succeeds exactly at end of input. -/
def eofP (i : Input) : Except NomErr (Input × Input) :=
  if i.isEmpty then .ok (i, i) else .error (.err (from_error_kind i .Eof))

/-- `nom` alternation (`Parser::or` / `alt`): try `p`; on a recoverable error
backtrack and try `q` on the same input (the combined error is the second
error, per the default `or` on errors); a failure propagates. -/
def altP {T : Type} (p q : Input → Except NomErr (Input × T)) (i : Input) : Except NomErr (Input × T) :=
  match p i with
  | .ok r => .ok r
  | .error (.failure e) => .error (.failure e)
  | .error (.err _) => q i

/-- parser.rs `empty_line` (inside `blanks`): `terminated(space0, char('\n'))`. -/
def empty_line (i : Input) : Except NomErr (Input × Input) := do
  let (i1, s) ← space0 i
  let (i2, _) ← pchar 10 i1
  .ok (i2, s)

/-- parser.rs `comment`: `delimited(char('#'), take_while(≠ '\n'), endline)`
where `endline` accepts a newline or end of input. -/
def comment (i : Input) : Except NomErr (Input × Input) := do
  let (i1, _) ← pchar 35 i
  let (i2, content) ← take_while (fun b => b != 10) i1
  match altP (pchar 10) (fun j => do let (j1, _) ← eofP j; pure (j1, 0)) i2 with
  | .ok (i3, _) => .ok (i3, content)
  | .error e => .error e

/-- The loop of parser.rs `blanks` (`fold_many0(empty_line.or(comment), ...)`),
fuel-indexed.  As in nom, an iteration that consumes nothing is an error of
kind `Many0` (the parsers only ever return suffixes of their input, so equal
length means unchanged input); since every successful iteration therefore
consumes at least one byte, fuel `i.length + 1` is always sufficient and the
fuel-exhausted branch is unreachable. -/
def blanksGo : Nat → Input → Except NomErr (Input × Unit)
  | 0, i => .error (.err (from_error_kind i .Many0))
  | fuel + 1, i =>
    match altP empty_line comment i with
    | .error (.failure e) => .error (.failure e)
    | .error (.err _) => .ok (i, ())
    | .ok (i1, _) =>
      if i1.length = i.length then .error (.err (from_error_kind i .Many0))
      else blanksGo fuel i1

/-- parser.rs `blanks`: discard blank lines and comments. -/
def blanks (i : Input) : Except NomErr (Input × Unit) := blanksGo (i.length + 1) i

/-- parser.rs `is_header_char`: printable ASCII except square brackets. -/
def is_header_char (c : Nat) : Bool :=
  32 ≤ c && c < 127 && c != 91 && c != 93

/-- Byte class `[A-Za-z0-9-]` of `KEY_RE`. -/
def isKeyChar (b : Nat) : Bool :=
  (65 ≤ b && b ≤ 90) || (97 ≤ b && b ≤ 122) || (48 ≤ b && b ≤ 57) || b = 45

/-- Byte class `[a-z]`. -/
def isLowerByte (b : Nat) : Bool := 97 ≤ b && b ≤ 122

/-- Byte class `[A-Z]`. -/
def isUpperByte (b : Nat) : Bool := 65 ≤ b && b ≤ 90

/-- Byte class `[A-Za-z09-]` of the modifier part of `KEY_RE` (the regex
literally lists `0`, `9` and `-`, not the full digit range). -/
def isModChar (b : Nat) : Bool :=
  (65 ≤ b && b ≤ 90) || (97 ≤ b && b ≤ 122) || b = 48 || b = 57 || b = 45

/-- `KEY_RE` fragment `[a-z]{2}`. -/
def matchLang : Input → Option Input
  | a :: b :: rest => if isLowerByte a && isLowerByte b then some rest else none
  | _ => none

/-- `KEY_RE` fragment `_[A-Z]{2}`. -/
def matchCountry : Input → Option Input
  | u :: a :: b :: rest =>
    if u = 95 && isUpperByte a && isUpperByte b then some rest else none
  | _ => none

/-- `KEY_RE` fragment `.[A-Za-z0-9-]+`: the dot matches one UTF-8 scalar other
than a newline (the regex is built with Unicode mode on); the following class
repetition is greedy, and since the class contains neither `@` nor `]` (the
only characters that can follow it in the pattern) the greedy run is the only
viable one. -/
def matchEncoding (i : Input) : Option Input :=
  match utf8DecodeOne i with
  | some (c, r) =>
    if c = '\n' then none
    else if (r.takeWhile isKeyChar).isEmpty then none
    else some (r.dropWhile isKeyChar)
  | none => none

/-- `KEY_RE` fragment `@[A-Za-z09-]+`; the class does not contain `]`, so the
greedy run is the only viable one. -/
def matchMod : Input → Option Input
  | b :: rest =>
    if b = 64 then
      if (rest.takeWhile isModChar).isEmpty then none
      else some (rest.dropWhile isModChar)
    else none
  | [] => none

/-- Alternatives of an optional (greedy `?`) regex group in preference order:
present first, then absent. -/
def optAlts (f : Input → Option Input) (i : Input) : List Input :=
  match f i with
  | some r => [r, i]
  | none => [i]

/-- Closing `\]` of the locale suffix. -/
def closeBracket : Input → Option Input
  | b :: rest => if b = 93 then some rest else none
  | [] => none

/-- The optional locale-suffix group of `KEY_RE`,
`(\[[a-z]{2}(_[A-Z]{2})?(.[A-Za-z0-9-]+)?(@[A-Za-z09-]+)?\])?`, matched with
the regex crate's leftmost-first semantics: each optional inner group prefers
being present, backtracking to absent if no later match completes.  Returns
the input remaining after the `]` when the whole group matches. -/
def matchSuffix (i : Input) : Option Input :=
  match i with
  | b :: rest =>
    if b = 91 then
      match matchLang rest with
      | some r1 =>
        (optAlts matchCountry r1).findSome? (fun r2 =>
          (optAlts matchEncoding r2).findSome? (fun r3 =>
            (optAlts matchMod r3).findSome? closeBracket))
      | none => none
    else none
  | [] => none

/-- Lowercase an ASCII uppercase byte (Rust `make_ascii_lowercase`, which
touches only bytes `A`-`Z`, leaving UTF-8 continuation bytes alone). -/
def lowerByte (b : Nat) : Nat := if 65 ≤ b && b ≤ 90 then b + 32 else b

/-- parser.rs `entry_key`: `re_find` with the anchored `KEY_RE`, then ASCII
lowercasing of the matched bytes.  With the `^` anchor a match can only start
at offset 0, and the leading `[A-Za-z0-9-]+` is greedy (its class excludes
`[`, so the maximal run is the only viable one); no match at all is a
recoverable error of kind `RegexpFind`.  The matched span is valid UTF-8 by
construction (everything except the suffix dot is ASCII, and the dot matched
a whole scalar), so the decode fallback `[]` is unreachable. -/
def entry_key (i : Input) : Except NomErr (Input × (List Char)) :=
  let keyBytes := i.takeWhile isKeyChar
  if keyBytes.isEmpty then .error (.err (from_error_kind i .RegexpFind))
  else
    let rest0 := i.dropWhile isKeyChar
    let rest :=
      match matchSuffix rest0 with
      | some r => r
      | none => rest0
    let matched := i.take (i.length - rest.length)
    .ok (rest, (utf8Decode (matched.map lowerByte)).getD [])

/-- parser.rs `entry_value`: `split_at_position_complete(|c| c == '\n')` — the
line is everything before the first newline (or the whole input), the newline
itself is skipped — followed by a UTF-8 check; an invalid line is the
non-recoverable failure `NonUtf8`. -/
def entry_value (i : Input) : Except NomErr (Input × (List Char)) :=
  let line := i.takeWhile (fun b => b != 10)
  let rest0 := i.dropWhile (fun b => b != 10)
  let rest := if rest0.isEmpty then rest0 else rest0.tail
  match utf8Decode line with
  | some s => .ok (rest, s)
  | none => .error (.failure ParseError.NonUtf8)

/-- parser.rs `entry`: `separated_pair(preceded(blanks, entry_key),
delimited(space0, char('='), space0), entry_value)`. -/
def entry (i : Input) : Except NomErr (Input × (List Char × List Char)) := do
  let (i1, _) ← blanks i
  let (i2, key) ← entry_key i1
  let (i3, _) ← space0 i2
  let (i4, _) ← pchar 61 i3
  let (i5, _) ← space0 i4
  let (i6, v) ← entry_value i5
  .ok (i6, (key, v))

/-- The loop of parser.rs `key_value_list` (`fold_many0(entry, HashMap::new,
insert)`), fuel-indexed exactly like `blanksGo`. -/
def kvGo : Nat → Input → List (List Char × List Char) →
    Except NomErr (Input × (List (List Char × List Char)))
  | 0, i, _ => .error (.err (from_error_kind i .Many0))
  | fuel + 1, i, acc =>
    match entry i with
    | .error (.failure e) => .error (.failure e)
    | .error (.err _) => .ok (i, acc)
    | .ok (i1, kv) =>
      if i1.length = i.length then .error (.err (from_error_kind i .Many0))
      else kvGo fuel i1 (hmInsert acc kv.1 kv.2)

/-- parser.rs `key_value_list`. -/
def key_value_list (i : Input) : Except NomErr (Input × (List (List Char × List Char))) :=
  kvGo (i.length + 1) i []

/-- parser.rs `group`: bracketed header (whose bytes pass through
`map_res(_, str::from_utf8)`, giving a recoverable error on invalid UTF-8 per
`from_external_error`), a newline, the key/value list, then trailing
blanks. -/
def group (i : Input) : Except NomErr (Input × Group) := do
  let (i1, _) ← pchar 91 i
  let (i2, hdr) ← take_while is_header_char i1
  let (i3, _) ← pchar 93 i2
  let name ← match utf8Decode hdr with
    | some s => Except.ok s
    | none => Except.error (.err ParseError.NonUtf8)
  let (i4, _) ← pchar 10 i3
  let (i5, values) ← key_value_list i4
  let (i6, _) ← blanks i5
  .ok (i6, Group.mk name values)

/-- The loop of `many0(group)` inside `desktop_entry`, fuel-indexed exactly
like `blanksGo`. -/
def groupsGo : Nat → Input → List Group → Except NomErr (Input × (List Group))
  | 0, i, _ => .error (.err (from_error_kind i .Many0))
  | fuel + 1, i, acc =>
    match group i with
    | .error (.failure e) => .error (.failure e)
    | .error (.err _) => .ok (i, acc)
    | .ok (i1, g) =>
      if i1.length = i.length then .error (.err (from_error_kind i .Many0))
      else groupsGo fuel i1 (acc ++ [g])

/-- parser.rs `desktop_entry`:
`preceded(blanks, map(many0(group), DesktopEntry::new))`. -/
def desktop_entry (i : Input) : Except NomErr (Input × DesktopEntry) := do
  let (i1, _) ← blanks i
  let (i2, gs) ← groupsGo (i1.length + 1) i1 []
  .ok (i2, DesktopEntry.mk gs)

/-- parser.rs `parse`: `all_consuming(desktop_entry)(input).finish()` — a
successful inner parse that leaves input unconsumed becomes a recoverable
error of kind `Eof`, and `finish` strips the `nom::Err` wrapper. -/
def parse (input : Input) : Except ParseError DesktopEntry :=
  match desktop_entry input with
  | .ok (rest, e) =>
    if rest.isEmpty then .ok e else .error (from_error_kind rest .Eof)
  | .error (.err e) => .error e
  | .error (.failure e) => .error e

/-- Outcome of running parser.rs `parse_io` on an already-read buffer: the
function either panics (in the debug `println!`, whose
`str::from_utf8(&buf).unwrap()` aborts on invalid UTF-8 before `parse` is
reached) or returns the result of `parse`.  The byte source itself (and its
possible i/o error) is outside the model: the argument is the buffer
`read_to_end` produced. -/
inductive IoOutcome
  | panics
  | result (r : Except ParseError DesktopEntry)
  deriving Repr

/-- parser.rs `parse_io`, modelled on the buffer it read. -/
def parse_io_on (buf : Input) : IoOutcome :=
  if validUtf8 buf then .result (parse buf) else .panics

/- ===================== Exec interpreter (execute.rs) ===================== -/

/-- execute.rs `Error`. -/
inductive ExecError
  | NoCommand
  | IncompleteEscape
  | IncompleteQuote
  | MultipleFileArgs
  | ExecuteFailed
  deriving DecidableEq, Repr

/-- execute.rs `ExecContext`: the entry being executed, the path of its
desktop file if known, and the caller-supplied file/URL arguments. -/
structure ExecContext where
  source : DesktopEntry
  source_path : Option (List Char)
  args : List (List Char)
  deriving Repr

/-- The loop of execute.rs `CommandWords::next`, with the repeated calls of
the iterator fused into one recursion: `escaping` and `in_quotes` are the
two state booleans, `acc` the word built so far.  A space outside quotes emits
the word; the iterator is invoked again only when input remains (its first
line returns `None` on empty input), which is the `rest.isEmpty` test.  At
end of input a pending escape or quote is an error, otherwise the final word
is emitted.  After an error the underlying char iterator is exhausted, so an
error is always the last item. -/
def commandWordsGo : List Char → Bool → Bool → List Char →
    List (Except ExecError (List Char))
  | [], escaping, in_quotes, acc =>
    if escaping then [.error .IncompleteEscape]
    else if in_quotes then [.error .IncompleteQuote]
    else [.ok acc]
  | c :: rest, escaping, in_quotes, acc =>
    if c = '"' ∧ ¬escaping then commandWordsGo rest escaping (!in_quotes) acc
    else if c = '\\' ∧ in_quotes then
      commandWordsGo rest (!escaping) in_quotes (acc ++ if escaping then ['\\'] else [])
    else if c = ' ' ∧ ¬in_quotes then
      .ok acc :: (if rest.isEmpty then [] else commandWordsGo rest false false [])
    else commandWordsGo rest false in_quotes (acc ++ [c])

/-- execute.rs `split_command`: the `CommandWords` iterator run to
completion.  Empty input yields no words at all. -/
def split_command (command : List Char) : List (Except ExecError (List Char)) :=
  match command with
  | [] => []
  | cs => commandWordsGo cs false false []

/-- execute.rs `ReplaceFlags::replace_append`: what a single `%.` regex match
`cap` contributes to the output.  Recognized codes append their substitution
(empty when the corresponding value is absent); an unrecognized code appends
nothing, so the matched two characters are dropped from the output. -/
def replace_append (ctx : ExecContext) (cap : List Char) : List Char :=
  if cap = ['%', 'f'] ∨ cap = ['%', 'u'] then (ctx.args.head?).getD []
  else if cap = ['%', 'i'] then (ctx.source.get_string "Icon".data).getD []
  else if cap = ['%', 'c'] then (ctx.source.get_string "Name".data).getD []
  else if cap = ['%', 'k'] then ctx.source_path.getD []
  else if cap = ['%', '%'] then ['%']
  else []

/-- `FLAG_RE.replace_all(arg, ReplaceFlags(context))` with `FLAG_RE = "%."`:
scan left to right; at a `%` followed by any character other than a newline
(the regex dot does not match a newline) the two characters are a match and
`replace_append` supplies their replacement, and scanning resumes after the
match; any other character is copied through.  In the `%`-then-newline case
the scan tries again at the newline, which (not being `%`) is itself copied,
so the two copy steps are fused here. -/
def replace_all (ctx : ExecContext) : List Char → List Char
  | [] => []
  | c :: rest =>
    if c = '%' then
      match rest with
      | [] => [c]
      | d :: rest2 =>
        if d = '\n' then c :: d :: replace_all ctx rest2
        else replace_append ctx [c, d] ++ replace_all ctx rest2
    else c :: replace_all ctx rest

/-- The argument loop of execute.rs `parse_command`: `had` is
`had_file_or_url`, `acc` the arguments pushed onto the `Command` so far.  A
tokenizer error propagates; a token exactly `%F` or `%U` splices in the whole
caller argument list, at most once; any other token goes through
`replace_all`. -/
def parseCommandGo (ctx : ExecContext) :
    List (Except ExecError (List Char)) → Bool → List (List Char) →
    Except ExecError (List (List Char))
  | [], _, acc => .ok acc
  | w :: ws, had, acc => do
    let arg ← w
    if arg = "%F".data ∨ arg = "%U".data then
      if had then .error .MultipleFileArgs
      else parseCommandGo ctx ws true (acc ++ ctx.args)
    else parseCommandGo ctx ws had (acc ++ [replace_all ctx arg])

/-- execute.rs `parse_command`: the first word is the program
(`NoCommand` when there is none), the remaining words are substituted into
the argument list.  The result models the constructed `Command` as program
name plus argument vector. -/
def parse_command (command : List Char) (ctx : ExecContext) :
    Except ExecError (List Char × List (List Char)) := do
  match split_command command with
  | [] => .error .NoCommand
  | w :: ws =>
    let bin ← w
    let args ← parseCommandGo ctx ws false []
    .ok (bin, args)

/- ===================== Concrete fixtures ===================== -/

/-- An `ExecContext` over an entry with no groups, no path and no caller
arguments. -/
def emptyCtx : ExecContext := ⟨⟨[]⟩, none, []⟩

/-- An `ExecContext` over an empty entry with caller arguments `p` and `q`. -/
def ctxPQ : ExecContext := ⟨⟨[]⟩, none, ["p".data, "q".data]⟩

/-- A document whose main group carries `Name=Firefox` and `Icon=firefox`
(keys stored lowercased, as the parser stores them). -/
def firefoxEntry : DesktopEntry :=
  ⟨[⟨"Desktop Entry".data,
     [("name".data, "Firefox".data), ("icon".data, "firefox".data)]⟩]⟩

/-- The context of the spec's substitution example: the Firefox entry, no
source path, one caller argument. -/
def firefoxCtx : ExecContext := ⟨firefoxEntry, none, ["https://example.com".data]⟩

end Dopen

deriving instance DecidableEq for Except

namespace Dopen

/- ===================== Claims ===================== -/

/-- Counterexample for C1: the claim that an unrecognized two-character field
code is left untouched in the output argument is false on the code.  For the
token `%z` (not `%F`/`%U`, code not among the recognized ones) the resulting
argument is the empty string, not `%z`: `replace_append` appends nothing for
an unrecognized flag, so the regex match is dropped from the output. -/
theorem c1_counterexample :
    parse_command ("prog %z").data emptyCtx = .ok ("prog".data, [[]]) ∧
    ([] : List Char) ≠ "%z".data := by
  constructor
  · decide
  · decide

/-- C1 (amended): in `parse_command`, for a token that is not exactly `%F` or
`%U`, each two-character `%<char>` sequence whose code is not one of `%f`,
`%u`, `%i`, `%c`, `%k`, `%%` and whose second character is not a newline is
removed from the output argument (the `%.` regex matches it but the replacer
appends no replacement), rather than being left untouched; a `%` followed by
a newline is never matched by the `%.` regex (the dot excludes newlines) and
is left untouched, as the original claim said. -/
theorem c1_amended :
    (∀ (ctx : ExecContext) (c : Char), c ∉ ['f', 'u', 'i', 'c', 'k', '%'] →
      c ≠ '\n' → ∀ rest, replace_all ctx ('%' :: c :: rest) = replace_all ctx rest) ∧
    (∀ (ctx : ExecContext) (rest : List Char),
      replace_all ctx ('%' :: '\n' :: rest) = '%' :: '\n' :: replace_all ctx rest) := by
  refine ⟨?_, fun ctx rest => rfl⟩
  intro ctx c hc hn rest
  simp only [List.mem_cons, List.mem_singleton, not_or] at hc
  obtain ⟨hf, hu, hi, hcc, hk, hp, -⟩ := hc
  simp [replace_all, replace_append, hn, hf, hu, hi, hcc, hk, hp]

/-- Witness for C1 (amended), at the unrecognized code `%z`. -/
theorem c1_witness :
    ('z' ∉ ['f', 'u', 'i', 'c', 'k', '%']) ∧
    replace_all emptyCtx ('%' :: 'z' :: []) = replace_all emptyCtx [] :=
  ⟨by decide, c1_amended.1 emptyCtx 'z' (by decide) (by decide) []⟩

/-- C2: for every input byte buffer that is not entirely valid UTF-8,
`parse_io` panics before any parsing happens — the unconditional `unwrap` in
its debug `println!` aborts — instead of returning the `NonUtf8` (or any)
error; whereas `parse` applied directly to the same bytes does not panic
(it is a total function in this embedding) and returns a document or a
`ParseError`. -/
theorem c2_parse_io_panics (buf : Input) (h : validUtf8 buf = false) :
    parse_io_on buf = .panics ∧
    ((∃ d, parse buf = .ok d) ∨ (∃ e, parse buf = .error e)) := by
  refine ⟨by simp [parse_io_on, h], ?_⟩
  cases hp : parse buf with
  | ok d => exact Or.inl ⟨d, rfl⟩
  | error e => exact Or.inr ⟨e, rfl⟩

/-- Witness for C2, at the single invalid byte `0xC0`. -/
theorem c2_witness :
    validUtf8 [192] = false ∧ parse_io_on [192] = .panics :=
  ⟨by decide, (c2_parse_io_panics [192] (by decide)).1⟩

/-- C3: in `parse_command`, a non-first token exactly `%F` or `%U` is
replaced as a single unit by the whole caller-supplied argument list in
order (and sets the once-only flag); when the flag is already set a second
such token (any combination of `%F` and `%U`) yields `MultipleFileArgs`.
Two closed instances illustrate both behaviors end to end. -/
theorem c3_file_args :
    (∀ (ctx : ExecContext) (t : List Char), t = "%F".data ∨ t = "%U".data →
      ∀ ws acc,
        parseCommandGo ctx (.ok t :: ws) false acc
          = parseCommandGo ctx ws true (acc ++ ctx.args) ∧
        parseCommandGo ctx (.ok t :: ws) true acc = .error .MultipleFileArgs) ∧
    parse_command ("run %F end").data ctxPQ
      = .ok ("run".data, ["p".data, "q".data, "end".data]) ∧
    parse_command ("run %F %U").data ctxPQ = .error .MultipleFileArgs := by
  refine ⟨?_, by decide, by decide⟩
  intro ctx t ht ws acc
  rcases ht with h | h <;> subst h <;> exact ⟨rfl, rfl⟩

/-- Witness for C3, at the token `%F` with the once-only flag already set. -/
theorem c3_witness :
    parseCommandGo ctxPQ [.ok "%F".data] true [] = .error .MultipleFileArgs :=
  (c3_file_args.1 ctxPQ "%F".data (Or.inl rfl) [] []).2

/-- C4: in `split_command`, backslash escaping is active only inside double
quotes — outside quotes a backslash is appended literally (and clears the
escape flag), so a trailing backslash is not an error; end of input with the
escape flag set is `IncompleteEscape`; end of input inside an unterminated
quote is `IncompleteQuote`.  Closed instances: a trailing unquoted backslash
tokenizes fine, and an unterminated quote errors. -/
theorem c4_escape_and_quote_errors :
    (∀ esc acc rest, commandWordsGo ('\\' :: rest) esc false acc
        = commandWordsGo rest false false (acc ++ ['\\'])) ∧
    (∀ q acc, commandWordsGo [] true q acc = [.error .IncompleteEscape]) ∧
    (∀ acc, commandWordsGo [] false true acc = [.error .IncompleteQuote]) ∧
    split_command ("a\\").data = [.ok ("a\\").data] ∧
    split_command ("\"a").data = [.error .IncompleteQuote] := by
  refine ⟨?_, by intro q acc; simp [commandWordsGo], by intro acc; simp [commandWordsGo],
    by decide, by decide⟩
  intro esc acc rest
  simp [commandWordsGo]


/-- C5: the spec's substitution example — main group `Name=Firefox`,
`Icon=firefox`, command `firefox %u %i --name %c`, caller args
`[https://example.com]` — yields program `firefox` and arguments
`[https://example.com, firefox, --name, Firefox]`; and in general `%f`/`%u`
substitute the first caller argument (empty if none), `%i` the `Icon` field,
`%c` the `Name` field, `%k` the source path, and `%%` a literal percent. -/
theorem c5_substitution :
    parse_command ("firefox %u %i --name %c").data firefoxCtx
      = .ok ("firefox".data,
          ["https://example.com".data, "firefox".data, "--name".data, "Firefox".data]) ∧
    (∀ ctx rest, replace_all ctx ('%' :: 'f' :: rest)
        = (ctx.args.head?).getD [] ++ replace_all ctx rest) ∧
    (∀ ctx rest, replace_all ctx ('%' :: 'u' :: rest)
        = (ctx.args.head?).getD [] ++ replace_all ctx rest) ∧
    (∀ ctx rest, replace_all ctx ('%' :: 'i' :: rest)
        = (ctx.source.get_string "Icon".data).getD [] ++ replace_all ctx rest) ∧
    (∀ ctx rest, replace_all ctx ('%' :: 'c' :: rest)
        = (ctx.source.get_string "Name".data).getD [] ++ replace_all ctx rest) ∧
    (∀ ctx rest, replace_all ctx ('%' :: 'k' :: rest)
        = ctx.source_path.getD [] ++ replace_all ctx rest) ∧
    (∀ ctx rest, replace_all ctx ('%' :: '%' :: rest) = '%' :: replace_all ctx rest) :=
  ⟨by decide, fun ctx rest => rfl, fun ctx rest => rfl, fun ctx rest => rfl,
    fun ctx rest => rfl, fun ctx rest => rfl, fun ctx rest => rfl⟩

/-- C6: in `split_command`, every space seen outside quotes ends the current
word and (when input remains) starts a new one, so doubled unquoted spaces
produce an empty intermediate word: `a  b` tokenizes to `a`, the empty
word, `b`. -/
theorem c6_empty_words :
    (∀ esc acc rest, commandWordsGo (' ' :: rest) esc false acc
        = .ok acc :: (if rest.isEmpty then [] else commandWordsGo rest false false [])) ∧
    split_command ("a  b").data = [.ok "a".data, .ok [], .ok "b".data] :=
  ⟨fun esc acc rest => rfl, by decide⟩

/-- Helper for C7: a character that is neither a backslash nor a semicolon is
simply accumulated by `splitGo`. -/
theorem splitGo_step (c : Char) (cs acc : List Char) (h1 : c ≠ '\\') (h2 : c ≠ ';') :
    splitGo (c :: cs) acc = splitGo cs (acc ++ [c]) := by
  cases cs with
  | nil => simp [splitGo, h1, h2]
  | cons d ds => simp [splitGo, h1, h2]

/-- Helper for C7: running `splitGo` on a backslash- and semicolon-free
segment followed by a final semicolon emits exactly the accumulator extended
by the segment — the final separator is consumed and no empty trailing value
appears. -/
theorem splitGo_append_semi (s : List Char) :
    ∀ acc, (∀ c ∈ s, c ≠ '\\' ∧ c ≠ ';') → splitGo (s ++ [';']) acc = [acc ++ s] := by
  induction s with
  | nil => intro acc _; simp [splitGo]
  | cons c cs ih =>
    intro acc h
    obtain ⟨h1, h2⟩ := h c (List.mem_cons_self c cs)
    rw [List.cons_append, splitGo_step c _ acc h1 h2,
      ih _ (fun x hx => h x (List.mem_cons_of_mem c hx))]
    simp

/-- C7: `split_value_str` on the empty string yields zero elements; on a
single semicolon it yields exactly one empty element; a final unescaped
semicolon emits the pending value and nothing after it (no trailing empty
element); and for every backslash- and semicolon-free string `s`,
splitting `s` followed by one semicolon yields exactly the one element
`s`. -/
theorem c7_split_multi_value :
    (∀ s : List Char, (∀ c ∈ s, c ≠ '\\' ∧ c ≠ ';') →
        split_value_str (s ++ [';']) = [s]) ∧
    split_value_str [] = [] ∧
    split_value_str [';'] = [[]] ∧
    (∀ acc, splitGo [';'] acc = [acc]) := by
  refine ⟨?_, rfl, by decide, fun acc => rfl⟩
  intro s h
  cases s with
  | nil => decide
  | cons c cs =>
    show splitGo ((c :: cs) ++ [';']) [] = [c :: cs]
    simpa using splitGo_append_semi (c :: cs) [] h

/-- Witness for C7, at the backslash- and semicolon-free string `a`. -/
theorem c7_witness : split_value_str ("a".data ++ [';']) = ["a".data] :=
  c7_split_multi_value.1 "a".data (by decide)

/-- Helper for C8: a character other than a backslash passes through
`unescape_value` unchanged. -/
theorem unescape_value_step (c : Char) (cs : List Char) (h : c ≠ '\\') :
    unescape_value (c :: cs) = c :: unescape_value cs := by
  cases cs with
  | nil => simp [unescape_value, h]
  | cons d ds => simp [unescape_value, h]

/-- Helper for C8: `unescape_value` is the identity on strings containing no
backslash. -/
theorem unescape_value_no_backslash (s : List Char) :
    (∀ c ∈ s, c ≠ '\\') → unescape_value s = s := by
  induction s with
  | nil => intro _; rfl
  | cons c cs ih =>
    intro h
    rw [unescape_value_step c cs (h c (List.mem_cons_self c cs)),
      ih (fun x hx => h x (List.mem_cons_of_mem c hx))]

/-- C8: `unescape_value` is total by construction; it is the identity (hence
idempotent) on strings with no backslash; it maps the two-character string of
two backslashes to a single backslash and a trailing lone backslash to a
single backslash; it replaces the escapes `s`, `n`, `t`, `r` and the doubled
backslash by space, newline, tab, carriage return and backslash; any other
escaped character is passed through with the backslash preserved. -/
theorem c8_unescape :
    (∀ s, (∀ c ∈ s, c ≠ '\\') → unescape_value s = s) ∧
    (∀ s, (∀ c ∈ s, c ≠ '\\') →
        unescape_value (unescape_value s) = unescape_value s) ∧
    unescape_value ['\\', '\\'] = ['\\'] ∧
    unescape_value ['\\'] = ['\\'] ∧
    (∀ r, unescape_value ('\\' :: 's' :: r) = ' ' :: unescape_value r) ∧
    (∀ r, unescape_value ('\\' :: 'n' :: r) = '\n' :: unescape_value r) ∧
    (∀ r, unescape_value ('\\' :: 't' :: r) = '\t' :: unescape_value r) ∧
    (∀ r, unescape_value ('\\' :: 'r' :: r) = '\r' :: unescape_value r) ∧
    (∀ r, unescape_value ('\\' :: '\\' :: r) = '\\' :: unescape_value r) ∧
    (∀ e r, e ∉ ['s', 'n', 't', 'r', '\\'] →
        unescape_value ('\\' :: e :: r) = '\\' :: e :: unescape_value r) := by
  refine ⟨unescape_value_no_backslash, ?_, by decide, by decide,
    fun r => rfl, fun r => rfl, fun r => rfl, fun r => rfl, fun r => rfl, ?_⟩
  · intro s h
    rw [unescape_value_no_backslash s h, unescape_value_no_backslash s h]
  · intro e r he
    simp only [List.mem_cons, List.mem_singleton, not_or] at he
    obtain ⟨h1, h2, h3, h4, h5, -⟩ := he
    simp [unescape_value, unescapeEscape, h1, h2, h3, h4, h5]

/-- Witness for C8, at the backslash-free string `abc`. -/
theorem c8_witness : unescape_value "abc".data = "abc".data :=
  c8_unescape.1 "abc".data (by decide)

/-- C9: field deserialization returns `none` only for boolean fields — a
boolean field deserializes to `some` exactly when the raw value is the
literal `true` or `false` (case-sensitive) — while the string, string-list,
`Type` and `Categories` deserializers return `some` on every input. -/
theorem c9_deserialize_totality :
    (∀ s, (bool_deserialize s).isSome = true ↔ s = "true".data ∨ s = "false".data) ∧
    (∀ s, (string_deserialize s).isSome = true) ∧
    (∀ s, (list_deserialize s).isSome = true) ∧
    (∀ s, (type_deserialize s).isSome = true) ∧
    (∀ s, (categories_deserialize s).isSome = true) := by
  refine ⟨?_, fun s => rfl, fun s => rfl, fun s => rfl, fun s => rfl⟩
  intro s
  unfold bool_deserialize bool_from_str
  by_cases h1 : s = "true".data
  · simp [h1]
  · by_cases h2 : s = "false".data
    · simp [h1, h2]
    · simp [h1, h2]

/-- C10: `parse` succeeds only when the grammar consumes the whole buffer —
whenever `desktop_entry` succeeds but leaves unconsumed input, `parse`
returns a `Syntax` error of kind `Eof` (from `all_consuming`), and no
document is produced. -/
theorem c10_all_consuming (buf rest : Input) (d : DesktopEntry)
    (h : desktop_entry buf = .ok (rest, d)) (hne : rest ≠ []) :
    parse buf = .error (ParseError.Syntax (rest.take 16) .Eof) ∧
    ∀ d2, parse buf ≠ .ok d2 := by
  have hp : parse buf = .error (ParseError.Syntax (rest.take 16) .Eof) := by
    unfold parse
    rw [h]
    cases rest with
    | nil => exact absurd rfl hne
    | cons b bs => rfl
  exact ⟨hp, fun d2 hcon => Except.noConfusion (hp ▸ hcon)⟩

/-- Witness for C10, at the one-byte buffer `x`, on which the grammar matches
zero groups and leaves the byte unconsumed. -/
theorem c10_witness :
    parse [120] = .error (ParseError.Syntax (([120] : Input).take 16) .Eof) ∧
    ∀ d2, parse [120] ≠ .ok d2 :=
  c10_all_consuming [120] [120] ⟨[]⟩ (by decide) (by decide)

end Dopen
